import Mathlib

/-!
Verification of the outline-extraction core of `extract_outline.py`.

The source program sanitizes a parsed HTML document, walks its block-level
nodes in document order, applies the heading grammar
`^(\d+(?:\.\d+)*)\s+(.+?)(?:\s+\d+)?$` to each block's stripped text,
deduplicates the resulting heading candidates by numeral path, bounds them
by a maximum depth and renders the result in three formats.

The embedding below models block text as `List Char` (one entry per Unicode
code point, matching Python string indexing/length).  The character classes
`\d` and `\s` of the Python regexes are modelled by their ASCII parts
(the documents the tool targets use ASCII section numerals); `str.strip` is
modelled accordingly.  The two regexes used on block text are translated as
direct functional parsers whose search order mirrors the backtracking
behaviour of Python's `re` engine on these specific patterns:

* in `^(\d+(?:\.\d+)*)\s+...`, group 1 is forced to the maximal prefix of
  the form digits('.'digits)*, because after any shorter choice the next
  character is a digit or a dot, which `\s+` cannot match;
* `\s+` separator lengths are tried greedily from the maximal whitespace
  run downwards, the lazy `(.+?)` tries the shortest title first, and the
  optional trailing `(?:\s+\d+)?$` is a deterministic check (`$` matches at
  the end of the string or before a final newline, and `.` does not match
  a newline).
-/

namespace ExtractOutline

/-- ASCII decimal digit, the ASCII part of the regex class `\d`. -/
def isPyDigit (c : Char) : Bool :=
  '0' ≤ c && c ≤ '9'

/-- ASCII whitespace, the ASCII part of the regex class `\s` and of the
characters removed by `str.strip()`. -/
def isPySpace (c : Char) : Bool :=
  c = ' ' || c = '\t' || c = '\n' || c = '\r' || c = '\x0b' || c = '\x0c'

/-- Python `str.strip()`: remove leading and trailing whitespace. -/
def pyStrip (l : List Char) : List Char :=
  ((l.dropWhile isPySpace).reverse.dropWhile isPySpace).reverse

/-- Character class of the filter regex `^[\d\s\.\-\,\(\)\[\]]+$`. -/
def punctClass (c : Char) : Bool :=
  isPyDigit c || isPySpace c || c = '.' || c = '-' || c = ',' ||
    c = '(' || c = ')' || c = '[' || c = ']'

/-- The filter `re.match(r'^[\d\s\.\-\,\(\)\[\]]+$', text)` as a predicate:
it holds exactly when the text is nonempty and all of its characters lie in
the class (a newline is itself in `\s`, so the `$` anchor adds nothing). -/
def punctOnly (l : List Char) : Bool :=
  !l.isEmpty && l.all punctClass

/-- Greedy continuation of the numeral path once at least one digit has been
consumed: further digits extend the current run, a dot followed by a digit
starts the next run of `(?:\.\d+)*`, anything else ends the numeral.
Returns the consumed prefix and the rest. -/
def numGo : List Char → List Char × List Char
  | [] => ([], [])
  | c :: rest =>
    if isPyDigit c then
      let p := numGo rest
      (c :: p.1, p.2)
    else if c = '.' then
      match rest with
      | [] => ([], c :: rest)
      | d :: rest2 =>
        if isPyDigit d then
          let p := numGo rest2
          (c :: d :: p.1, p.2)
        else ([], c :: rest)
    else ([], c :: rest)

/-- Group 1 of the heading regex: the maximal prefix of the form
`\d+(?:\.\d+)*`, or `none` when the text does not start with a digit.
(The regex engine cannot settle on any shorter prefix: after a shorter
choice the next character is a digit or a dot, which `\s+` rejects.) -/
def numeralParse (s : List Char) : Option (List Char × List Char) :=
  match s with
  | [] => none
  | c :: rest =>
    if isPyDigit c then
      let p := numGo rest
      some (c :: p.1, p.2)
    else none

/-- The anchor `$` of a Python regex (without `re.MULTILINE`): it matches at
the end of the string or just before a final newline. -/
def endAnchor (l : List Char) : Bool :=
  l.isEmpty || l = ['\n']

/-- The optional trailer `(?:\s+\d+)?$` checked at a fixed position: either
the trailer is present (a maximal nonempty whitespace run, then a maximal
nonempty digit run, then the end anchor; any shorter greedy choice fails
immediately) or it is absent and the position itself is at the anchor. -/
def trailerOk (l : List Char) : Bool :=
  (let w := l.takeWhile isPySpace
   !w.isEmpty &&
     (let v := l.dropWhile isPySpace
      let d := v.takeWhile isPyDigit
      !d.isEmpty && endAnchor (v.dropWhile isPyDigit)))
  || endAnchor l

/-- The lazy title `(.+?)` followed by `(?:\s+\d+)?$`: starting from the
shortest nonempty title, extend one character at a time (a title character
cannot be a newline, which `.` does not match) until the trailer check
succeeds after it.  Returns group 2 of the heading regex. -/
def titleGo (acc : List Char) : List Char → Option (List Char)
  | [] => none
  | c :: rest =>
    if c = '\n' then none
    else
      let acc' := acc ++ [c]
      if trailerOk rest then some acc' else titleGo acc' rest

/-- Search for the title after the separator, at a fixed separator length. -/
def titleSearch (s : List Char) : Option (List Char) :=
  titleGo [] s

/-- The greedy separator `\s+`: try separator lengths from `j` characters
down to one character, taking the first length at which the rest of the
pattern matches. -/
def sepTry (rest : List Char) : Nat → Option (List Char)
  | 0 => none
  | j + 1 =>
    match titleSearch (rest.drop (j + 1)) with
    | some r => some r
    | none => sepTry rest j

/-- `re.match` of the heading regex `^(\d+(?:\.\d+)*)\s+(.+?)(?:\s+\d+)?$`
on a text: returns groups 1 and 2 (numeral path and raw title). -/
def headingMatch (s : List Char) : Option (List Char × List Char) :=
  match numeralParse s with
  | none => none
  | some (num, rest) =>
    match sepTry rest (rest.takeWhile isPySpace).length with
    | none => none
    | some raw => some (num, raw)

/-- Python `number.count('.')`, the number of dot separators. -/
def dotCount (num : List Char) : Nat :=
  (num.filter (fun c => c = '.')).length

/-- `level = number.count('.') + 1` as computed in the extraction loop. -/
def levelOf (num : List Char) : Nat :=
  dotCount num + 1

/-- A heading candidate as matched by the loop body before deduplication:
group 1, the stripped group 2, and the stripped block text. -/
structure HeadingCandidate where
  number : List Char
  title : List Char
  full_text : List Char
deriving DecidableEq, Repr

/-- The per-block matching part of the extraction loop: strip the text,
skip it when empty, skip it when only digits/whitespace/listed punctuation,
apply the heading regex, and reject empty or one-character stripped titles.
Every rejection yields `none` (the block is silently skipped). -/
def matchCandidate (rawText : List Char) : Option HeadingCandidate :=
  let text := pyStrip rawText
  if text.isEmpty then none
  else if punctOnly text then none
  else
    match headingMatch text with
    | none => none
    | some (number, rawTitle) =>
      let title := pyStrip rawTitle
      if title.isEmpty || title.length < 2 then none
      else some ⟨number, title, text⟩

/-- An accepted outline entry, mirroring the dict appended to `outline`
(keys `number`, `title`, `level`, `full_text`, in insertion order). -/
structure OutlineItem where
  number : List Char
  title : List Char
  level : Nat
  full_text : List Char
deriving DecidableEq, Repr

/-- The entry built from a candidate, with
`level = number.count('.') + 1`. -/
def mkItem (c : HeadingCandidate) : OutlineItem :=
  ⟨c.number, c.title, levelOf c.number, c.full_text⟩

/-- One step of the accumulation loop on a matched candidate, mirroring the
source order of checks: skip when the numeral path is already in
`processed_numbers`; otherwise compute the level and, when it is within
`max_level`, append the entry and record the numeral path. -/
def accStep (maxLevel : Nat) (st : List OutlineItem × List (List Char))
    (c : HeadingCandidate) : List OutlineItem × List (List Char) :=
  if c.number ∈ st.2 then st
  else
    let level := levelOf c.number
    if level ≤ maxLevel then
      (st.1 ++ [⟨c.number, c.title, level, c.full_text⟩], st.2 ++ [c.number])
    else st

/-- The accumulator run on a stream of already-matched candidates, starting
from an empty outline and an empty seen set. -/
def accumulate (cands : List HeadingCandidate) (maxLevel : Nat) :
    List OutlineItem :=
  (cands.foldl (accStep maxLevel) ([], [])).1

/-- One iteration of the extraction loop over a block text: matching fused
with accumulation, exactly as in the source loop body. -/
def extractStep (maxLevel : Nat) (st : List OutlineItem × List (List Char))
    (rawText : List Char) : List OutlineItem × List (List Char) :=
  match matchCandidate rawText with
  | none => st
  | some c => accStep maxLevel st c

/-- The extraction loop of `extract_outline` over the block texts returned
by the document traversal, in document order. -/
def extractFromTexts (texts : List (List Char)) (maxLevel : Nat) :
    List OutlineItem :=
  (texts.foldl (extractStep maxLevel) ([], [])).1

/-! ### The sanitizer rules on paragraph/div blocks

`clean_html_for_outline` removes tables, images, scripts/styles and
non-content tags, then walks every remaining `p`/`div` block: a block whose
stripped text matches `^(图|表|Fig|Table)\s*[\d\.]+` is removed as a
caption, and otherwise a block whose stripped text is longer than 200
characters is removed as body prose.  The flat model below views the
reduced document as its list of block-level elements in document order. -/

/-- The caption label alternatives, in the order they appear in the
pattern `^(图|表|Fig|Table)\s*[\d\.]+`. -/
def captionLabels : List (List Char) :=
  ["图".data, "表".data, "Fig".data, "Table".data]

/-- `re.match(r'^(图|表|Fig|Table)\s*[\d\.]+', text)` as a predicate: a
label word, then a maximal (possibly empty) whitespace run, then at least
one character from `[\d\.]`.  A shorter whitespace run can never help the
engine, since the next character would be whitespace, which `[\d\.]`
rejects; the alternatives start with distinct characters. -/
def captionMatch (t : List Char) : Bool :=
  captionLabels.any (fun lab =>
    lab.isPrefixOf t &&
      (let v := (t.drop lab.length).dropWhile isPySpace
       match v.head? with
       | some c => isPyDigit c || c = '.'
       | none => false))

/-- A block-level element of the reduced document: its tag name and the
text `get_text()` returns for it. -/
structure Block where
  tag : String
  text : List Char
deriving DecidableEq, Repr

/-- Whether the paragraph pass of `clean_html_for_outline` keeps a block:
`p`/`div` blocks are dropped when their stripped text matches the caption
pattern, or otherwise when it is longer than 200 characters; blocks with
any other tag are not inspected by this pass. -/
def keepBlock (b : Block) : Bool :=
  if b.tag = "p" || b.tag = "div" then
    let t := pyStrip b.text
    if captionMatch t then false
    else if 200 < t.length then false
    else true
  else true

/-- The paragraph pass of the sanitizer over the block list. -/
def cleanBlocks (blocks : List Block) : List Block :=
  blocks.filter keepBlock

/-- The tags the extraction loop traverses:
`soup.find_all(['p', 'div', 'h1', ..., 'h6'])`. -/
def headingTags : List String :=
  ["p", "div", "h1", "h2", "h3", "h4", "h5", "h6"]

/-- The extraction pipeline on a document given as its block list: the
sanitizer's paragraph pass, then the extraction loop over the texts of the
surviving block-level elements, in document order. -/
def extractOutlineBlocks (blocks : List Block) (maxLevel : Nat) :
    List OutlineItem :=
  extractFromTexts
    (((cleanBlocks blocks).filter (fun b => headingTags.contains b.tag)).map
      Block.text) maxLevel

/-! ### Formatters -/

/-- The output formats of `extract_outline`. -/
inductive OutFormat where
  | txt
  | json
  | markdown
deriving DecidableEq, Repr

/-- `generate_text_outline`: one line per entry, indented by two spaces per
level below the first, joined with newlines. -/
def textOutline (outline : List OutlineItem) : List Char :=
  List.intercalate ['\n']
    (outline.map (fun item =>
      List.replicate (2 * (item.level - 1)) ' ' ++
        item.number ++ ' ' :: item.title))

/-- `generate_markdown_outline`: a document title line and a blank line,
then per entry a heading line with `level + 1` markers and a blank line,
joined with newlines. -/
def markdownOutline (outline : List OutlineItem) : List Char :=
  List.intercalate ['\n']
    ("# 文档大纲".data :: [] ::
      (outline.map (fun item =>
        [List.replicate (item.level + 1) '#' ++ ' ' ::
           item.number ++ ' ' :: item.title, []])).flatten)

/-- Lowercase hexadecimal digit. -/
def hexDigit (n : Nat) : Char :=
  if n < 10 then Char.ofNat ('0'.toNat + n)
  else Char.ofNat ('a'.toNat + (n - 10))

/-- JSON escaping of one character as `json.dumps` does with
`ensure_ascii=False`: only the quote, the backslash and control characters
are escaped. -/
def jsonEscapeChar (c : Char) : List Char :=
  if c = '"' then ['\\', '"']
  else if c = '\\' then ['\\', '\\']
  else if c = '\n' then ['\\', 'n']
  else if c = '\r' then ['\\', 'r']
  else if c = '\t' then ['\\', 't']
  else if c = '\x08' then ['\\', 'b']
  else if c = '\x0c' then ['\\', 'f']
  else if c.toNat < 0x20 then
    ['\\', 'u', '0', '0', hexDigit (c.toNat / 16), hexDigit (c.toNat % 16)]
  else [c]

/-- A JSON string literal. -/
def jsonStr (s : List Char) : List Char :=
  '"' :: s.foldr (fun c acc => jsonEscapeChar c ++ acc) ['"']

/-- One entry as `json.dumps` renders it at `indent=2`, with the dict keys
in insertion order. -/
def jsonItemChars (item : OutlineItem) : List Char :=
  "\x7b\n    \"number\": ".data ++ jsonStr item.number ++
    ",\n    \"title\": ".data ++ jsonStr item.title ++
    ",\n    \"level\": ".data ++ (Nat.repr item.level).data ++
    ",\n    \"full_text\": ".data ++ jsonStr item.full_text ++
    "\n  \x7d".data

/-- `json.dumps(outline, ensure_ascii=False, indent=2)`. -/
def jsonDumps (outline : List OutlineItem) : List Char :=
  match outline with
  | [] => "[]".data
  | _ =>
    "[\n  ".data ++
      List.intercalate ",\n  ".data (outline.map jsonItemChars) ++
      "\n]".data

/-- The format dispatch of `extract_outline`: `json`, `markdown`, and
anything else rendered as text. -/
def renderOutline : OutFormat → List OutlineItem → List Char
  | .json, outline => jsonDumps outline
  | .markdown, outline => markdownOutline outline
  | .txt, outline => textOutline outline

/-! ### Properties of the heading matcher -/

/-- Continuation of the numeral grammar after its first digit:
`\d*(?:\.\d+)*` matched against the whole list. -/
def shapeGo : List Char → Bool
  | [] => true
  | c :: rest =>
    if isPyDigit c then shapeGo rest
    else if c = '.' then
      match rest with
      | [] => false
      | d :: rest2 => isPyDigit d && shapeGo rest2
    else false

/-- The numeral grammar `\d+(?:\.\d+)*` matched against the whole list. -/
def numeralShape (l : List Char) : Bool :=
  match l with
  | [] => false
  | c :: rest => isPyDigit c && shapeGo rest

theorem numGo_append (l : List Char) : (numGo l).1 ++ (numGo l).2 = l := by
  induction l using numGo.induct with
  | case1 => rfl
  | case2 d rest2 h ih => rw [numGo.eq_def]; simp [h, ih]
  | case3 h => rw [numGo.eq_def]; simp [h]
  | case4 d rest2 h h2 ih => rw [numGo.eq_def]; simp [h, h2, ih]
  | case5 d rest2 h h2 => rw [numGo.eq_def]; simp [h, h2]
  | case6 d rest2 h h2 => rw [numGo.eq_def]; simp [h, h2]

theorem shapeGo_numGo (l : List Char) : shapeGo (numGo l).1 = true := by
  induction l using numGo.induct with
  | case1 => rfl
  | case2 d rest2 h ih =>
    rw [numGo.eq_def]
    simp only [h, if_true]
    rw [shapeGo.eq_def]
    simp [h, ih]
  | case3 h => rw [numGo.eq_def]; simp [h]; decide
  | case4 d rest2 h h2 ih =>
    rw [numGo.eq_def]
    simp only [h, h2, if_true, if_false]
    rw [shapeGo.eq_def]
    simp [h, h2, ih]
  | case5 d rest2 h h2 => rw [numGo.eq_def]; simp [h, h2]; decide
  | case6 d rest2 h h2 => rw [numGo.eq_def]; simp [h, h2]; decide

/-- A character of a dotted numeral is a digit or a dot. -/
def numChar (c : Char) : Bool :=
  isPyDigit c || c = '.'

theorem shapeGo_all :
    ∀ (l : List Char), shapeGo l = true → l.all numChar = true := by
  intro l
  induction l using shapeGo.induct with
  | case1 => intro _; rfl
  | case2 d rest2 h ih =>
    intro hs
    rw [shapeGo.eq_def] at hs
    simp only [h, if_true] at hs
    simp [List.all_cons, numChar, h, ih hs]
  | case3 h =>
    intro hs
    rw [shapeGo.eq_def] at hs
    simp [h] at hs
  | case4 d rest2 h ih =>
    intro hs
    rw [shapeGo.eq_def] at hs
    simp at hs
    simp [List.all_cons, numChar, hs.1, ih hs.2]
  | case5 d rest2 h h2 =>
    intro hs
    rw [shapeGo.eq_def] at hs
    simp [h, h2] at hs

theorem numeralShape_all {l : List Char} (h : numeralShape l = true) :
    l.all numChar = true := by
  cases l with
  | nil => exact absurd h (by decide)
  | cons c rest =>
    replace h : (isPyDigit c && shapeGo rest) = true := h
    rw [Bool.and_eq_true] at h
    simp [List.all_cons, numChar, h.1, shapeGo_all rest h.2]

/-- Whitespace is neither a digit nor a dot. -/
theorem isPySpace_not_numChar {c : Char} (h : isPySpace c = true) :
    numChar c = false := by
  simp only [isPySpace, Bool.or_eq_true, decide_eq_true_eq] at h
  rcases h with ((((h | h) | h) | h) | h) | h <;> subst h <;> decide

theorem numeralParse_spec {s num rest : List Char}
    (h : numeralParse s = some (num, rest)) :
    s = num ++ rest ∧ numeralShape num = true := by
  cases s with
  | nil => simp [numeralParse] at h
  | cons c tail =>
    by_cases hd : isPyDigit c = true
    · simp only [numeralParse, hd, if_true, Option.some.injEq, Prod.mk.injEq]
        at h
      obtain ⟨h1, h2⟩ := h
      subst h1; subst h2
      constructor
      · have := numGo_append tail
        simp [this]
      · simp [numeralShape, hd, shapeGo_numGo]
    · simp [numeralParse, hd] at h

theorem titleGo_spec :
    ∀ (s acc r : List Char), titleGo acc s = some r →
      ∃ k, 1 ≤ k ∧ k ≤ s.length ∧ r = acc ++ s.take k ∧
        trailerOk (s.drop k) = true := by
  intro s
  induction s with
  | nil => intro acc r h; simp [titleGo] at h
  | cons c rest ih =>
    intro acc r h
    simp only [titleGo] at h
    by_cases hnl : c = '\n'
    · simp [hnl] at h
    · simp only [hnl, if_false] at h
      by_cases htr : trailerOk rest = true
      · simp only [htr, if_true, Option.some.injEq] at h
        exact ⟨1, Nat.le_refl 1, by simp, by simp [← h], by simpa using htr⟩
      · simp only [htr, if_false] at h
        obtain ⟨k, hk1, hk2, hk3, hk4⟩ := ih (acc ++ [c]) r h
        exact ⟨k + 1, Nat.le_add_left 1 k, by simpa using hk2,
          by simpa using hk3, by simpa using hk4⟩

theorem sepTry_spec :
    ∀ (j : Nat) (rest r : List Char), sepTry rest j = some r →
      ∃ i, 1 ≤ i ∧ i ≤ j ∧ titleGo [] (rest.drop i) = some r := by
  intro j
  induction j with
  | zero => intro rest r h; simp [sepTry] at h
  | succ j ih =>
    intro rest r h
    simp only [sepTry, titleSearch] at h
    cases hts : titleGo [] (rest.drop (j + 1)) with
    | some r2 =>
      rw [hts] at h
      exact ⟨j + 1, Nat.le_add_left 1 j, Nat.le_refl _, by
        simpa [hts] using h⟩
    | none =>
      rw [hts] at h
      obtain ⟨i, hi1, hi2, hi3⟩ := ih rest r h
      exact ⟨i, hi1, Nat.le_succ_of_le hi2, hi3⟩

theorem take_all_of_le_takeWhile (p : Char → Bool) :
    ∀ (l : List Char) (i : Nat), i ≤ (l.takeWhile p).length →
      (l.take i).all p = true := by
  intro l
  induction l with
  | nil => intro i _; simp
  | cons c rest ih =>
    intro i hi
    cases i with
    | zero => simp
    | succ j =>
      by_cases hc : p c = true
      · simp only [List.takeWhile_cons, hc, if_true, List.length_cons] at hi
        simp [List.take_succ_cons, List.all_cons, hc,
          ih j (Nat.le_of_succ_le_succ hi)]
      · simp [List.takeWhile_cons, hc] at hi


/-- Structure of a successful heading match: group 1 satisfies the numeral
grammar, and the text splits as numeral, nonempty whitespace separator,
group 2, and a trailer accepted by `(?:\s+\d+)?$`. -/
theorem headingMatch_decomp {s num raw : List Char}
    (h : headingMatch s = some (num, raw)) :
    numeralShape num = true ∧
      ∃ sep trail, s = num ++ sep ++ raw ++ trail ∧ sep ≠ [] ∧
        sep.all isPySpace = true ∧ trailerOk trail = true := by
  unfold headingMatch at h
  cases hnp : numeralParse s with
  | none => rw [hnp] at h; simp at h
  | some p =>
    obtain ⟨num0, rest⟩ := p
    rw [hnp] at h
    dsimp only at h
    cases hst : sepTry rest (rest.takeWhile isPySpace).length with
    | none => rw [hst] at h; simp at h
    | some raw0 =>
      rw [hst] at h
      simp only [Option.some.injEq, Prod.mk.injEq] at h
      obtain ⟨h1, h2⟩ := h
      subst h1; subst h2
      obtain ⟨hs_eq, hshape⟩ := numeralParse_spec hnp
      obtain ⟨i, hi1, hi2, hig⟩ := sepTry_spec _ _ _ hst
      obtain ⟨k, hk1, hk2, hk3, hk4⟩ := titleGo_spec _ _ _ hig
      have hraw : raw0 = (rest.drop i).take k := by simpa using hk3
      have hi_le : i ≤ rest.length :=
        le_trans hi2 (List.takeWhile_sublist isPySpace).length_le
      refine ⟨hshape, rest.take i, (rest.drop i).drop k, ?_, ?_, ?_, hk4⟩
      · rw [hs_eq, hraw]
        conv_lhs =>
          rw [← List.take_append_drop i rest,
            ← List.take_append_drop k (rest.drop i)]
        simp [List.append_assoc]
      · have : (rest.take i).length = i := by
          simp [List.length_take]
          omega
        intro hnil
        rw [hnil] at this
        simp at this
        omega
      · exact take_all_of_le_takeWhile isPySpace rest i hi2

/-- Group 1 of a successful heading match is the longest numeral-shaped
prefix of the text: the character right after it is whitespace, which no
dotted numeral contains. -/
theorem headingMatch_num_maximal {s num raw : List Char}
    (h : headingMatch s = some (num, raw)) :
    ∀ p, numeralShape p = true → p <+: s → p.length ≤ num.length := by
  obtain ⟨_, sep, trail, hs_eq, hsep_ne, hsep_all, _⟩ := headingMatch_decomp h
  intro p hp hpre
  by_contra hlen
  push_neg at hlen
  have hnum_pre : num <+: s :=
    ⟨sep ++ raw ++ trail, by rw [hs_eq]; simp [List.append_assoc]⟩
  have hnum_p : num <+: p :=
    List.prefix_of_prefix_length_le hnum_pre hpre (Nat.le_of_lt hlen)
  obtain ⟨q, hq⟩ := hnum_p
  obtain ⟨u, hu⟩ := hpre
  have hqu0 : num ++ (q ++ u) = num ++ (sep ++ raw ++ trail) := by
    rw [← List.append_assoc, hq, hu, hs_eq]
    simp [List.append_assoc]
  have hqu : q ++ u = sep ++ raw ++ trail := List.append_cancel_left hqu0
  cases hsep : sep with
  | nil => exact hsep_ne hsep
  | cons w sep2 =>
    have hw : isPySpace w = true := by
      rw [hsep] at hsep_all
      simp [List.all_cons] at hsep_all
      exact hsep_all.1
    cases hqc : q with
    | nil =>
      rw [hqc, List.append_nil] at hq
      rw [hq] at hlen
      omega
    | cons a q2 =>
      have ha_eq : a = w := by
        rw [hsep, hqc] at hqu
        simpa using congrArg List.head? hqu
      have ha_mem : a ∈ p := by
        rw [← hq, hqc]
        simp
      have ha_num : numChar a = true :=
        List.all_eq_true.mp (numeralShape_all hp) a ha_mem
      rw [ha_eq, isPySpace_not_numChar hw] at ha_num
      cases ha_num

/-! ### Properties of the accumulator -/

theorem accStep_eq (maxLevel : Nat) (st : List OutlineItem × List (List Char))
    (c : HeadingCandidate) :
    (c.number ∈ st.2 ∧ accStep maxLevel st c = st) ∨
      (c.number ∉ st.2 ∧ maxLevel < levelOf c.number ∧
        accStep maxLevel st c = st) ∨
      (c.number ∉ st.2 ∧ levelOf c.number ≤ maxLevel ∧
        accStep maxLevel st c = (st.1 ++ [mkItem c], st.2 ++ [c.number])) := by
  by_cases h1 : c.number ∈ st.2
  · exact Or.inl ⟨h1, by simp [accStep, h1]⟩
  · by_cases h2 : levelOf c.number ≤ maxLevel
    · exact Or.inr (Or.inr ⟨h1, h2, by simp [accStep, mkItem, h1, h2]⟩)
    · exact Or.inr (Or.inl ⟨h1, by omega, by simp [accStep, h1, h2]⟩)

/-- Invariant of the accumulation fold: the seen set always lists exactly
the numeral paths of the accumulated entries, those paths stay distinct,
and the new entries form a depth-bounded sublist (hence an order-preserving
selection) of the candidates in stream order. -/
theorem accFold (maxLevel : Nat) :
    ∀ (cands : List HeadingCandidate) (res : List OutlineItem)
      (seen : List (List Char)),
      seen = res.map OutlineItem.number →
      (res.map OutlineItem.number).Nodup →
      (cands.foldl (accStep maxLevel) (res, seen)).2 =
          ((cands.foldl (accStep maxLevel) (res, seen)).1).map
            OutlineItem.number ∧
        (((cands.foldl (accStep maxLevel) (res, seen)).1).map
          OutlineItem.number).Nodup ∧
        ∃ r, (cands.foldl (accStep maxLevel) (res, seen)).1 = res ++ r ∧
          r.Sublist (cands.map mkItem) ∧ ∀ e ∈ r, e.level ≤ maxLevel := by
  intro cands
  induction cands with
  | nil =>
    intro res seen hseen hnodup
    exact ⟨hseen, hnodup, [], by simp, List.nil_sublist _, by simp⟩
  | cons c cs ih =>
    intro res seen hseen hnodup
    rw [List.foldl_cons]
    rcases accStep_eq maxLevel (res, seen) c with ⟨_, hstep⟩ |
      ⟨_, _, hstep⟩ | ⟨hmem, hlev, hstep⟩
    · rw [hstep]
      obtain ⟨g1, g2, r, hr1, hr2, hr3⟩ := ih res seen hseen hnodup
      exact ⟨g1, g2, r, hr1, hr2.cons (mkItem c), hr3⟩
    · rw [hstep]
      obtain ⟨g1, g2, r, hr1, hr2, hr3⟩ := ih res seen hseen hnodup
      exact ⟨g1, g2, r, hr1, hr2.cons (mkItem c), hr3⟩
    · rw [hstep]
      have hseen' : seen ++ [c.number] =
          (res ++ [mkItem c]).map OutlineItem.number := by
        simp [hseen, mkItem]
      have hnodup' : ((res ++ [mkItem c]).map OutlineItem.number).Nodup := by
        rw [List.map_append]
        rw [List.nodup_append]
        refine ⟨hnodup, by simp, ?_⟩
        intro a ha
        simp [mkItem]
        intro hax
        rw [hax] at ha
        rw [← hseen] at ha
        exact hmem ha
      obtain ⟨g1, g2, r, hr1, hr2, hr3⟩ :=
        ih (res ++ [mkItem c]) (seen ++ [c.number]) hseen' hnodup'
      refine ⟨g1, g2, mkItem c :: r, ?_, hr2.cons₂ (mkItem c), ?_⟩
      · rw [hr1]
        simp
      · intro e he
        rcases List.mem_cons.mp he with he | he
        · rw [he]; exact hlev
        · exact hr3 e he

/-- The accumulator from the empty state: distinct numeral paths, an
order-preserving selection of the candidates, and levels within bound. -/
theorem accumulate_spec (cands : List HeadingCandidate) (maxLevel : Nat) :
    ((accumulate cands maxLevel).map OutlineItem.number).Nodup ∧
      (accumulate cands maxLevel).Sublist (cands.map mkItem) ∧
      ∀ e ∈ accumulate cands maxLevel, e.level ≤ maxLevel := by
  obtain ⟨g1, g2, r, hr1, hr2, hr3⟩ :=
    accFold maxLevel cands [] [] (by simp) (by simp)
  unfold accumulate
  refine ⟨g2, ?_, ?_⟩
  · rw [hr1]
    simpa using hr2
  · rw [hr1]
    simpa using hr3

/-- Every accumulated entry is the image of a candidate, so its level is
the dot count of its own numeral path plus one. -/
theorem accumulate_level_eq (cands : List HeadingCandidate) (maxLevel : Nat) :
    ∀ e ∈ accumulate cands maxLevel, e.level = levelOf e.number := by
  intro e he
  have hsub := (accumulate_spec cands maxLevel).2.1.subset he
  obtain ⟨c, _, rfl⟩ := List.mem_map.mp hsub
  rfl

/-- The fused extraction loop is the accumulator run on the stream of
successfully matched candidates, in document order. -/
theorem extractFold_eq (maxLevel : Nat) :
    ∀ (texts : List (List Char)) (st : List OutlineItem × List (List Char)),
      texts.foldl (extractStep maxLevel) st =
        (texts.filterMap matchCandidate).foldl (accStep maxLevel) st := by
  intro texts
  induction texts with
  | nil => intro st; rfl
  | cons t ts ih =>
    intro st
    rw [List.foldl_cons]
    cases hm : matchCandidate t with
    | none =>
      rw [List.filterMap_cons_none hm]
      simp only [extractStep, hm]
      exact ih st
    | some c =>
      rw [List.filterMap_cons_some hm, List.foldl_cons]
      simp only [extractStep, hm]
      exact ih (accStep maxLevel st c)

theorem extractFromTexts_eq_accumulate (texts : List (List Char))
    (maxLevel : Nat) :
    extractFromTexts texts maxLevel =
      accumulate (texts.filterMap matchCandidate) maxLevel := by
  unfold extractFromTexts accumulate
  rw [extractFold_eq]

/-! ### Tree model of the sanitizer's paragraph pass

`clean_html_for_outline` runs `soup.find_all(['p', 'div'])`, which collects
the matching elements of the (already table/image/script-free) tree in
document order, up front; the loop then inspects each collected element
even when an enclosing element was already decomposed.  Decomposing an
element detaches it and clears every descendant, so a later `get_text()`
on such a descendant returns the empty string.  The model keeps the
pre-order list of `p`/`div` positions (as paths into the tree) with their
original subtree texts, and replays the loop: the text seen at an
iteration is empty exactly when the position lies under an already
removed one (descendants are visited after their ancestors in pre-order,
and removing a subtree never changes the text of any element outside it). -/

/-- A node of the parsed document: a text node or an element with a tag
and children. -/
inductive HNode where
  | htext : List Char → HNode
  | helem : String → List HNode → HNode

/-- `get_text()` of a forest: the concatenation of all text nodes of the
subtrees, in document order. -/
def getTextF : List HNode → List Char
  | [] => []
  | .htext s :: ns => s ++ getTextF ns
  | .helem _ cs :: ns => getTextF cs ++ getTextF ns

/-- `soup.find_all(['p', 'div'])` over a forest whose roots sit at indices
`i, i+1, ...` under the path `path`: the pre-order list of positions of
`p`/`div` elements, each with its subtree text. -/
def blocksF : List Nat → Nat → List HNode → List (List Nat × List Char)
  | _, _, [] => []
  | path, i, .htext _ :: ns => blocksF path (i + 1) ns
  | path, i, .helem tag cs :: ns =>
    (if tag = "p" || tag = "div" then [(path ++ [i], getTextF cs)] else [])
      ++ blocksF (path ++ [i]) 0 cs ++ blocksF path (i + 1) ns

/-- The removal state of the caption/long-paragraph loop: positions of the
decomposed blocks and the two counters of `CleanStats` this loop owns. -/
structure PassState where
  removed : List (List Nat)
  captions : Nat
  longs : Nat
deriving DecidableEq, Repr

/-- Whether a position lies at or below an already decomposed element. -/
def clearedUnder (removed : List (List Nat)) (pos : List Nat) : Bool :=
  removed.any (fun q => q.isPrefixOf pos)

/-- One iteration of the caption/long-paragraph loop: `get_text().strip()`
(empty when the element was cleared by an earlier decompose), then the
caption rule, then the 200-character rule; each removal appends the
position and bumps its counter. -/
def paraStep (st : PassState) (b : List Nat × List Char) : PassState :=
  let text := if clearedUnder st.removed b.1 then [] else pyStrip b.2
  if captionMatch text then
    ⟨st.removed ++ [b.1], st.captions + 1, st.longs⟩
  else if 200 < text.length then
    ⟨st.removed ++ [b.1], st.captions, st.longs + 1⟩
  else st

/-- The whole caption/long-paragraph pass over a document forest. -/
def paraPass (doc : List HNode) : PassState :=
  (blocksF [] 0 doc).foldl paraStep ⟨[], 0, 0⟩

theorem blocksF_pos :
    ∀ (path : List Nat) (i : Nat) (ns : List HNode) (q : List Nat),
      q ∈ (blocksF path i ns).map Prod.fst →
      ∃ j t, i ≤ j ∧ q = path ++ j :: t := by
  intro path i ns
  induction path, i, ns using blocksF.induct with
  | case1 path i =>
    intro q hq
    simp [blocksF] at hq
  | case2 path i s ns ih =>
    intro q hq
    rw [show blocksF path i (.htext s :: ns) = blocksF path (i + 1) ns
      from by rw [blocksF]] at hq
    obtain ⟨j, t, hj, hq⟩ := ih q hq
    exact ⟨j, t, by omega, hq⟩
  | case3 path i tag cs ns ih1 ih2 =>
    intro q hq
    rw [show blocksF path i (.helem tag cs :: ns) =
        (if tag = "p" || tag = "div" then [(path ++ [i], getTextF cs)]
          else []) ++ blocksF (path ++ [i]) 0 cs ++ blocksF path (i + 1) ns
      from by rw [blocksF]] at hq
    simp only [List.map_append, List.mem_append] at hq
    rcases hq with (hq | hq) | hq
    · have : q = path ++ [i] := by
        rcases htag : (tag = "p" || tag = "div") with _ | _ <;>
          rw [htag] at hq <;> simp at hq
        exact hq
      exact ⟨i, [], Nat.le_refl i, this⟩
    · obtain ⟨j, t, _, hq⟩ := ih1 q hq
      exact ⟨i, j :: t, Nat.le_refl i, by rw [hq]; simp⟩
    · obtain ⟨j, t, hj, hq⟩ := ih2 q hq
      exact ⟨j, t, by omega, hq⟩

theorem blocksF_nodup :
    ∀ (path : List Nat) (i : Nat) (ns : List HNode),
      ((blocksF path i ns).map Prod.fst).Nodup := by
  intro path i ns
  induction path, i, ns using blocksF.induct with
  | case1 path i => simp [blocksF]
  | case2 path i s ns ih =>
    rw [show blocksF path i (.htext s :: ns) = blocksF path (i + 1) ns
      from by rw [blocksF]]
    exact ih
  | case3 path i tag cs ns ih1 ih2 =>
    rw [show blocksF path i (.helem tag cs :: ns) =
        (if tag = "p" || tag = "div" then [(path ++ [i], getTextF cs)]
          else []) ++ blocksF (path ++ [i]) 0 cs ++ blocksF path (i + 1) ns
      from by rw [blocksF]]
    simp only [List.map_append, List.append_assoc]
    rw [List.nodup_append]
    refine ⟨?_, ?_, ?_⟩
    · rcases htag : (tag = "p" || tag = "div") with _ | _ <;> simp [htag]
    · rw [List.nodup_append]
      refine ⟨ih1, ih2, ?_⟩
      intro q hq1 hq2
      obtain ⟨j, t, _, hq⟩ := blocksF_pos _ _ _ q hq1
      obtain ⟨j2, t2, hj2, hq2e⟩ := blocksF_pos _ _ _ q hq2
      rw [hq2e] at hq
      have hassoc : path ++ j2 :: t2 = path ++ ([i] ++ j :: t) := by
        rw [hq, List.append_assoc]
      have : j2 :: t2 = [i] ++ j :: t := List.append_cancel_left hassoc
      simp at this
      omega
    · intro q hq1 hq2
      have hq_eq : q = path ++ [i] := by
        rcases htag : (tag = "p" || tag = "div") with _ | _ <;>
          rw [htag] at hq1 <;> simp at hq1
        exact hq1
      rw [List.mem_append] at hq2
      rcases hq2 with hq2 | hq2
      · obtain ⟨j, t, _, hq⟩ := blocksF_pos _ _ _ q hq2
        rw [hq_eq] at hq
        have hassoc : path ++ [i] = path ++ ([i] ++ j :: t) := by
          rw [hq, List.append_assoc]
        have : [i] = [i] ++ j :: t := List.append_cancel_left hassoc
        simp at this
      · obtain ⟨j, t, hj, hq⟩ := blocksF_pos _ _ _ q hq2
        rw [hq_eq] at hq
        have : [i] = j :: t := List.append_cancel_left hq
        simp at this
        omega

theorem paraStep_removed (st : PassState) (b : List Nat × List Char) :
    (paraStep st b).removed = st.removed ∨
      (paraStep st b).removed = st.removed ++ [b.1] := by
  unfold paraStep
  by_cases h1 :
      captionMatch (if clearedUnder st.removed b.1 then [] else pyStrip b.2)
        = true
  · simp [h1]
  · by_cases h2 : 200 <
        (if clearedUnder st.removed b.1 then [] else pyStrip b.2).length
    · simp [h1, h2]
    · simp [h1, h2]

theorem paraFold_removed :
    ∀ (blocks : List (List Nat × List Char)) (st : PassState),
      ∃ r, (blocks.foldl paraStep st).removed = st.removed ++ r ∧
        r.Sublist (blocks.map Prod.fst) := by
  intro blocks
  induction blocks with
  | nil => intro st; exact ⟨[], by simp, List.nil_sublist _⟩
  | cons b bs ih =>
    intro st
    rw [List.foldl_cons]
    obtain ⟨r, hr1, hr2⟩ := ih (paraStep st b)
    rcases paraStep_removed st b with hstep | hstep
    · exact ⟨r, by rw [hr1, hstep], hr2.cons b.1⟩
    · refine ⟨b.1 :: r, ?_, hr2.cons₂ b.1⟩
      rw [hr1, hstep]
      simp

/-- An iteration on a block lying under an already removed element is a
no-op: its text reads back empty, neither rule fires, no counter moves,
nothing more is removed. -/
theorem paraStep_cleared {st : PassState} {b : List Nat × List Char}
    (h : clearedUnder st.removed b.1 = true) : paraStep st b = st := by
  unfold paraStep
  rw [if_pos h]
  have hc : captionMatch ([] : List Char) = false := by decide
  simp [hc]

/-! ### The output stage of `extract_outline` and the `__main__` script

`extract_outline(html_file, output_file, format, max_level)` renders the
extracted outline in the requested format, writes it to `output_file` when
one is given and prints it to the console otherwise.  The `__main__` block
parses `input_file`, `--max-level`, `--format` and `--output`, then calls
`extract_outline` four times: once printing text to the console, and three
times writing the files `附件1_outline.txt`, `附件1_outline.md` and
`附件1_outline.json` — these names are string literals in the script, and
`args.output` and `args.format` are never read after parsing. -/

/-- The observable outcome of one `extract_outline` call on a document
given as its block list: what is printed, what is written, and the
returned outline. -/
structure RunResult where
  console : Option (List Char)
  fileWrite : Option (String × List Char)
  outline : List OutlineItem
deriving DecidableEq, Repr

/-- One `extract_outline` call: extract, render in the requested format,
then write to the output file when given, else print. -/
def extractRun (blocks : List Block) (output_file : Option String)
    (fmt : OutFormat) (maxLevel : Nat) : RunResult :=
  let outline := extractOutlineBlocks blocks maxLevel
  let output_text := renderOutline fmt outline
  match output_file with
  | some f => ⟨none, some (f, output_text), outline⟩
  | none => ⟨some output_text, none, outline⟩

/-- The observable outcome of the `__main__` script: the console outline
and the file writes, in order. -/
structure MainResult where
  console : Option (List Char)
  writes : List (String × List Char)
deriving DecidableEq, Repr

/-- The `__main__` block.  `input_file` names the file whose parsed blocks
are `blocks`; `outputArg` is the parsed `--output` value, which the script
never uses.  Four independent `extract_outline` calls run on the same
input with the same `max_level`: console text, then the three files with
the literal names from the script. -/
def mainRun (input_file : String) (blocks : List Block) (maxLevel : Nat)
    (outputArg : Option String) : MainResult :=
  let r1 := extractRun blocks none .txt maxLevel
  let r2 := extractRun blocks (some "附件1_outline.txt") .txt maxLevel
  let r3 := extractRun blocks (some "附件1_outline.md") .markdown maxLevel
  let r4 := extractRun blocks (some "附件1_outline.json") .json maxLevel
  ⟨r1.console, r2.fileWrite.toList ++ r3.fileWrite.toList ++
    r4.fileWrite.toList⟩

/-- Modelled from the spec: the stem of a path — the final component with
its last extension removed (a leading dot alone is not an extension). -/
def pathStem (p : String) : String :=
  let base := (p.data.reverse.takeWhile (fun c => c ≠ '/')).reverse
  let r := base.reverse
  let ext := r.takeWhile (fun c => c ≠ '.')
  if ext.length = r.length then String.mk base
  else if ext.length + 1 = r.length then String.mk base
  else String.mk ((r.drop (ext.length + 1)).reverse)

/-- Modelled from the spec: running without an output path
\"additionally always writes three sibling files:
<stem>_outline.txt, <stem>_outline.md, <stem>_outline.json\" — the file
names the specification claims, derived from the input file's stem. -/
def specSiblingFiles (input_file : String) : List String :=
  [pathStem input_file ++ "_outline.txt",
   pathStem input_file ++ "_outline.md",
   pathStem input_file ++ "_outline.json"]

/-! ### The claims -/

set_option maxRecDepth 8000

/-- The five blocks of the end-to-end example, in document order. -/
def c1Blocks : List Block :=
  [⟨"p", "1 Introduction".data⟩, ⟨"p", "1.1 Background".data⟩,
   ⟨"p", "1.1.1 Sensor Placement".data⟩, ⟨"p", "2 Methods".data⟩,
   ⟨"p", "2.1 Data Collection".data⟩]

/-- Claim C1: on the blocks "1 Introduction", "1.1 Background",
"1.1.1 Sensor Placement", "2 Methods", "2.1 Data Collection" in document
order, extraction with max_level = 2 yields exactly the four entries
1 Introduction, 1.1 Background, 2 Methods, 2.1 Data Collection in that
order, with "1.1.1 Sensor Placement" excluded by the depth bound. -/
theorem c1_end_to_end_example :
    extractOutlineBlocks c1Blocks 2 =
      [⟨"1".data, "Introduction".data, 1, "1 Introduction".data⟩,
       ⟨"1.1".data, "Background".data, 2, "1.1 Background".data⟩,
       ⟨"2".data, "Methods".data, 1, "2 Methods".data⟩,
       ⟨"2.1".data, "Data Collection".data, 2, "2.1 Data Collection".data⟩]
      ∧ ∀ e ∈ extractOutlineBlocks c1Blocks 2, e.number ≠ "1.1.1".data := by
  constructor
  · decide
  · decide

/-- Witness for C1: the first extracted entry exists and is not the
depth-excluded "1.1.1" heading. -/
theorem c1_end_to_end_example_witness :
    (⟨"1".data, "Introduction".data, 1,
       "1 Introduction".data⟩ : OutlineItem).number ≠ "1.1.1".data :=
  c1_end_to_end_example.2 _ (by decide)

/-- Counterexample to claim C2 as stated: the block text "1 23" matches
the heading grammar (numeral path 1, raw title 23) and its stripped title
has the required two characters, yet the program emits no candidate — the
digits/whitespace/punctuation filter fires before the heading grammar is
ever applied, so matching the grammar with a long-enough title does not
suffice for a candidate. -/
theorem c2_grammar_counterexample :
    headingMatch (pyStrip "1 23".data) = some ("1".data, "23".data) ∧
      2 ≤ (pyStrip "23".data).length ∧
      punctOnly (pyStrip "1 23".data) = true ∧
      matchCandidate "1 23".data = none := by
  refine ⟨by decide, by decide, by decide, by decide⟩

/-- Claim C2 as amended: a surviving block — one whose stripped text is
nonempty and is not caught by the digits/whitespace/punctuation filter —
whose stripped text matches the heading grammar with a stripped title of
at least two characters yields exactly one candidate whose numeral path
is the leading dotted numeral (it satisfies the numeral grammar, starts
the text, is followed by whitespace, and no longer numeral-shaped prefix
exists), whose title excludes any trailing bare page-number suffix (the
text decomposes as numeral, whitespace, title, and a trailer accepted by
the optional page-number group), and whose resulting entry level is the
dot count of the numeral path plus one; a block with a shorter stripped
title, one that does not match the grammar, or one caught by the filter,
yields no candidate (and the matcher is a total function, so no error). -/
theorem c2_heading_grammar :
    (∀ t num rawTitle, pyStrip t ≠ [] → punctOnly (pyStrip t) = false →
        headingMatch (pyStrip t) = some (num, rawTitle) →
        2 ≤ (pyStrip rawTitle).length →
        matchCandidate t = some ⟨num, pyStrip rawTitle, pyStrip t⟩ ∧
          numeralShape num = true ∧
          (∃ sep trail, pyStrip t = num ++ sep ++ rawTitle ++ trail ∧
            sep ≠ [] ∧ sep.all isPySpace = true ∧ trailerOk trail = true) ∧
          ∀ p, numeralShape p = true → p <+: pyStrip t →
            p.length ≤ num.length) ∧
      (∀ (texts : List (List Char)) (maxLevel : Nat),
        ∀ e ∈ extractFromTexts texts maxLevel,
          e.level = dotCount e.number + 1) ∧
      (∀ t, headingMatch (pyStrip t) = none → matchCandidate t = none) ∧
      (∀ t num rawTitle, headingMatch (pyStrip t) = some (num, rawTitle) →
        (pyStrip rawTitle).length < 2 → matchCandidate t = none) ∧
      (∀ t, punctOnly (pyStrip t) = true → matchCandidate t = none) := by
  refine ⟨?_, ?_, ?_, ?_, ?_⟩
  · intro t num rawTitle hne hpf hhm hlen
    have h1 : ¬((pyStrip t).isEmpty = true) := by
      simpa [List.isEmpty_iff] using hne
    have h2 : ¬(punctOnly (pyStrip t) = true) := by simp [hpf]
    have htne : ¬((pyStrip rawTitle).isEmpty ||
        decide ((pyStrip rawTitle).length < 2)) = true := by
      cases hmt : pyStrip rawTitle with
      | nil => rw [hmt] at hlen; simp at hlen
      | cons x xs =>
        rw [hmt] at hlen
        simp only [List.isEmpty_cons, Bool.false_or, decide_eq_true_eq]
        omega
    refine ⟨?_, (headingMatch_decomp hhm).1, ?_, headingMatch_num_maximal hhm⟩
    · simp only [matchCandidate]
      rw [if_neg h1, if_neg h2, hhm]
      dsimp only
      rw [if_neg htne]
    · obtain ⟨_, sep, trail, hdec⟩ := headingMatch_decomp hhm
      exact ⟨sep, trail, hdec⟩
  · intro texts maxLevel e he
    rw [extractFromTexts_eq_accumulate] at he
    exact accumulate_level_eq _ _ e he
  · intro t hnone
    simp only [matchCandidate]
    by_cases h1 : (pyStrip t).isEmpty = true
    · rw [if_pos h1]
    · rw [if_neg h1]
      by_cases h2 : punctOnly (pyStrip t) = true
      · rw [if_pos h2]
      · rw [if_neg h2, hnone]
  · intro t num rawTitle hhm hshort
    simp only [matchCandidate]
    by_cases h1 : (pyStrip t).isEmpty = true
    · rw [if_pos h1]
    · rw [if_neg h1]
      by_cases h2 : punctOnly (pyStrip t) = true
      · rw [if_pos h2]
      · rw [if_neg h2, hhm]
        dsimp only
        rw [if_pos (by simp [hshort])]
  · intro t hpo
    simp only [matchCandidate]
    by_cases h1 : (pyStrip t).isEmpty = true
    · rw [if_pos h1]
    · rw [if_neg h1, if_pos hpo]

/-- Witness for C2 at the block text "1.2 Overview 34": the candidate is
emitted with numeral path 1.2 and title Overview (page number 34
discarded). -/
theorem c2_heading_grammar_witness :
    matchCandidate "1.2 Overview 34".data =
      some ⟨"1.2".data, "Overview".data,
        "1.2 Overview 34".data⟩ :=
  (c2_heading_grammar.1 "1.2 Overview 34".data "1.2".data "Overview".data
    (by decide) (by decide) (by decide) (by decide)).1

/-- Claim C3: for every max_level in the CLI range and every candidate
stream, no candidate deeper than max_level contributes an entry, every
entry's level lies between 1 and max_level, entries carry pairwise
distinct numeral paths, and the result is an order-preserving selection
of the candidate stream (a sublist of it, in document order). -/
theorem c3_accumulator_invariants (maxLevel : Nat)
    (cands : List HeadingCandidate)
    (hmax : maxLevel = 1 ∨ maxLevel = 2 ∨ maxLevel = 3) :
    (∀ c ∈ cands, maxLevel < levelOf c.number →
        mkItem c ∉ accumulate cands maxLevel) ∧
      (∀ e ∈ accumulate cands maxLevel, 1 ≤ e.level ∧ e.level ≤ maxLevel) ∧
      ((accumulate cands maxLevel).map OutlineItem.number).Nodup ∧
      (accumulate cands maxLevel).Sublist (cands.map mkItem) := by
  obtain ⟨hnd, hsub, hbound⟩ := accumulate_spec cands maxLevel
  refine ⟨?_, ?_, hnd, hsub⟩
  · intro c _ hlev hmem
    have hb := hbound _ hmem
    have he : (mkItem c).level = levelOf c.number := rfl
    omega
  · intro e he
    have h1 := hbound e he
    have h2 := accumulate_level_eq cands maxLevel e he
    refine ⟨?_, h1⟩
    rw [h2]
    unfold levelOf
    omega

/-- Witness for C3 at max_level = 2 on a two-candidate stream with levels
1 and 3: the level-3 candidate is absent and the invariants hold. -/
theorem c3_accumulator_invariants_witness :
    (∀ c ∈ ([⟨"1".data, "ab".data, "1 ab".data⟩,
        ⟨"1.1.1".data, "cd".data, "1.1.1 cd".data⟩] :
          List HeadingCandidate), 2 < levelOf c.number →
        mkItem c ∉ accumulate [⟨"1".data, "ab".data, "1 ab".data⟩,
          ⟨"1.1.1".data, "cd".data, "1.1.1 cd".data⟩] 2) ∧
      (∀ e ∈ accumulate [⟨"1".data, "ab".data, "1 ab".data⟩,
          ⟨"1.1.1".data, "cd".data, "1.1.1 cd".data⟩] 2,
        1 ≤ e.level ∧ e.level ≤ 2) ∧
      ((accumulate [⟨"1".data, "ab".data, "1 ab".data⟩,
          ⟨"1.1.1".data, "cd".data, "1.1.1 cd".data⟩] 2).map
        OutlineItem.number).Nodup ∧
      (accumulate [⟨"1".data, "ab".data, "1 ab".data⟩,
          ⟨"1.1.1".data, "cd".data, "1.1.1 cd".data⟩] 2).Sublist
        (([⟨"1".data, "ab".data, "1 ab".data⟩,
          ⟨"1.1.1".data, "cd".data, "1.1.1 cd".data⟩] :
            List HeadingCandidate).map mkItem) :=
  c3_accumulator_invariants 2 _ (Or.inr (Or.inl rfl))

/-- Modelled from the spec: the accumulator step in the order the
specification states it — discard when the level exceeds max_level, else
discard when the numeral path is already seen, else record the path and
append the entry. -/
def specAccStep (maxLevel : Nat) (st : List OutlineItem × List (List Char))
    (c : HeadingCandidate) : List OutlineItem × List (List Char) :=
  if maxLevel < levelOf c.number then st
  else if c.number ∈ st.2 then st
  else (st.1 ++ [mkItem c], st.2 ++ [c.number])

/-- Claim C4: the loop's step behaves exactly as the spec's accumulator
step (the source checks the seen set before the level, but the two orders
are observably identical because a path is recorded only when its entry is
appended); and on a stream carrying "2.1" twice, only the first occurrence
in document order survives. -/
theorem c4_dedup_first_wins :
    (∀ (maxLevel : Nat) (st : List OutlineItem × List (List Char))
        (c : HeadingCandidate),
      accStep maxLevel st c = specAccStep maxLevel st c) ∧
      extractFromTexts
        ["2.1 Data Collection".data, "2.1 Data Collection".data] 2 =
        [⟨"2.1".data, "Data Collection".data, 2,
          "2.1 Data Collection".data⟩] := by
  constructor
  · intro maxLevel st c
    unfold accStep specAccStep
    by_cases h1 : c.number ∈ st.2
    · by_cases h2 : levelOf c.number ≤ maxLevel
      · simp [h1, h2, Nat.not_lt.mpr h2]
      · simp [h1, h2, Nat.lt_of_not_le h2]
    · by_cases h2 : levelOf c.number ≤ maxLevel
      · simp [h1, h2, mkItem, Nat.not_lt.mpr h2]
      · simp [h1, h2, Nat.lt_of_not_le h2]
  · decide

/-- The caption block of the exclusion example. -/
def captionBlock : Block := ⟨"p", "图1.1 Layout Diagram".data⟩

/-- Claim C5: every paragraph/div block whose stripped text matches the
figure/table caption pattern is removed by the sanitizer before heading
matching; in particular the block "图1.1 Layout Diagram" matches the
pattern, is dropped, and its presence anywhere in the document changes
nothing about the extracted outline at any depth. -/
theorem c5_caption_removed :
    (∀ b : Block, (b.tag = "p" ∨ b.tag = "div") →
        captionMatch (pyStrip b.text) = true → keepBlock b = false) ∧
      captionMatch (pyStrip captionBlock.text) = true ∧
      ∀ (pre post : List Block) (maxLevel : Nat),
        extractOutlineBlocks (pre ++ captionBlock :: post) maxLevel =
          extractOutlineBlocks (pre ++ post) maxLevel := by
  have hkeep : ∀ b : Block, (b.tag = "p" ∨ b.tag = "div") →
      captionMatch (pyStrip b.text) = true → keepBlock b = false := by
    intro b htag hcap
    unfold keepBlock
    have hc : (b.tag = "p" || b.tag = "div") = true := by
      rcases htag with h | h <;> simp [h]
    rw [if_pos hc]
    dsimp only
    rw [if_pos hcap]
  refine ⟨hkeep, by decide, ?_⟩
  intro pre post maxLevel
  unfold extractOutlineBlocks cleanBlocks
  rw [List.filter_append, List.filter_cons,
    List.filter_append]
  simp [hkeep captionBlock (Or.inl rfl) (by decide)]

/-- Witness for C5: the caption block is dropped by the sanitizer and a
document consisting of it alone yields the empty outline of the empty
document. -/
theorem c5_caption_removed_witness :
    keepBlock captionBlock = false ∧
      extractOutlineBlocks [captionBlock] 2 = extractOutlineBlocks [] 2 :=
  ⟨c5_caption_removed.1 captionBlock (Or.inl rfl) (by decide),
   by simpa using c5_caption_removed.2.2 [] [] 2⟩

/-- A 250-character paragraph starting with the numeral prefix 1.2 . -/
def longBlock : Block := ⟨"p", "1.2 ".data ++ List.replicate 246 'x'⟩

/-- Claim C6: every paragraph/div block that does not match the caption
pattern and whose stripped text exceeds 200 characters is removed by the
sanitizer; in particular the 250-character paragraph beginning "1.2 " is
dropped, and its presence anywhere in the document changes nothing about
the extracted outline at any depth. -/
theorem c6_long_paragraph_removed :
    (∀ b : Block, (b.tag = "p" ∨ b.tag = "div") →
        captionMatch (pyStrip b.text) = false →
        200 < (pyStrip b.text).length → keepBlock b = false) ∧
      longBlock.text.length = 250 ∧
      ∀ (pre post : List Block) (maxLevel : Nat),
        extractOutlineBlocks (pre ++ longBlock :: post) maxLevel =
          extractOutlineBlocks (pre ++ post) maxLevel := by
  have hkeep : ∀ b : Block, (b.tag = "p" ∨ b.tag = "div") →
      captionMatch (pyStrip b.text) = false →
      200 < (pyStrip b.text).length → keepBlock b = false := by
    intro b htag hcap hlen
    unfold keepBlock
    have hc : (b.tag = "p" || b.tag = "div") = true := by
      rcases htag with h | h <;> simp [h]
    rw [if_pos hc]
    dsimp only
    rw [if_neg (by simp [hcap]), if_pos hlen]
  refine ⟨hkeep, by decide, ?_⟩
  intro pre post maxLevel
  unfold extractOutlineBlocks cleanBlocks
  rw [List.filter_append, List.filter_cons,
    List.filter_append]
  simp [hkeep longBlock (Or.inl rfl) (by decide) (by decide)]

/-- Witness for C6: the 250-character paragraph is dropped by the
sanitizer and a document consisting of it alone yields the empty outline
of the empty document, at max depth 3. -/
theorem c6_long_paragraph_removed_witness :
    keepBlock longBlock = false ∧
      extractOutlineBlocks [longBlock] 3 = extractOutlineBlocks [] 3 :=
  ⟨c6_long_paragraph_removed.1 longBlock (Or.inl rfl) (by decide)
      (by decide),
   by simpa using c6_long_paragraph_removed.2.2 [] [] 3⟩

/-- Counterexample to claim C7 as stated: run on the input file
report.html, the script writes its three fixed literal file names
附件1_outline.txt / .md / .json, not the names derived from the input
file's stem that the claim asserts. -/
theorem c7_sibling_files_counterexample :
    (mainRun "report.html" [] 2 none).writes.map Prod.fst =
        ["附件1_outline.txt", "附件1_outline.md", "附件1_outline.json"] ∧
      specSiblingFiles "report.html" =
        ["report_outline.txt", "report_outline.md",
          "report_outline.json"] ∧
      (mainRun "report.html" [] 2 none).writes.map Prod.fst ≠
        specSiblingFiles "report.html" := by
  refine ⟨by decide, by decide, by decide⟩

/-- Claim C7 as amended: whenever the CLI runs — with or without
--output, which is parsed but never used — the text-format outline is
printed to the console and three files with the fixed names
附件1_outline.txt, 附件1_outline.md, 附件1_outline.json are always
written, each produced by an independent extraction pass over the same
input with the same max depth. -/
theorem c7_fixed_output_files (input_file : String) (blocks : List Block)
    (maxLevel : Nat) (outputArg : Option String) :
    (mainRun input_file blocks maxLevel outputArg).console =
        some (renderOutline .txt (extractOutlineBlocks blocks maxLevel)) ∧
      (mainRun input_file blocks maxLevel outputArg).writes =
        [("附件1_outline.txt",
           renderOutline .txt (extractOutlineBlocks blocks maxLevel)),
         ("附件1_outline.md",
           renderOutline .markdown (extractOutlineBlocks blocks maxLevel)),
         ("附件1_outline.json",
           renderOutline .json (extractOutlineBlocks blocks maxLevel))] ∧
      mainRun input_file blocks maxLevel outputArg =
        mainRun input_file blocks maxLevel none :=
  ⟨rfl, rfl, rfl⟩

/-- Claim C8: within one run of the sanitizer's caption/long-paragraph
pass no element is ever removed twice (the removed positions are pairwise
distinct), and an iteration on a block sitting at or below an already
removed element is a complete no-op — its text reads back empty, neither
removal rule fires, no CleanStats counter moves. -/
theorem c8_no_double_removal (doc : List HNode) :
    ((paraPass doc).removed).Nodup ∧
      ∀ (st : PassState) (b : List Nat × List Char),
        clearedUnder st.removed b.1 = true → paraStep st b = st := by
  constructor
  · obtain ⟨r, hr1, hr2⟩ := paraFold_removed (blocksF [] 0 doc) ⟨[], 0, 0⟩
    unfold paraPass
    rw [hr1]
    simpa using hr2.nodup (blocksF_nodup [] 0 doc)
  · intro st b h
    exact paraStep_cleared h

/-- Witness for C8: a document with a nested paragraph, and a cleared
iteration (position `[0, 0]` below the removed `[0]`) that leaves state
and counters untouched even though its original text is caption-like. -/
theorem c8_no_double_removal_witness :
    ((paraPass [.helem "div" [.htext "图1.1 Layout Diagram".data,
        .helem "p" [.htext "x".data]]]).removed).Nodup ∧
      paraStep ⟨[[0]], 1, 0⟩ ([0, 0], "图2.2 y".data) = ⟨[[0]], 1, 0⟩ :=
  ⟨(c8_no_double_removal [.helem "div" [.htext "图1.1 Layout Diagram".data,
      .helem "p" [.htext "x".data]]]).1,
   (c8_no_double_removal []).2 ⟨[[0]], 1, 0⟩ ([0, 0], "图2.2 y".data)
     (by decide)⟩

/-- Claim C9: the extraction pipeline is a pure function of the parsed
document and its configuration — the embedding carries no state between
calls, and two runs on identical input with identical max depth produce
identical output in every format. -/
theorem c9_deterministic_output (blocks1 blocks2 : List Block)
    (m1 m2 : Nat) (f1 f2 : OutFormat) (hb : blocks1 = blocks2)
    (hm : m1 = m2) (hf : f1 = f2) :
    renderOutline f1 (extractOutlineBlocks blocks1 m1) =
      renderOutline f2 (extractOutlineBlocks blocks2 m2) := by
  subst hb; subst hm; subst hf; rfl

/-- Witness for C9: two JSON-format runs on the example document agree. -/
theorem c9_deterministic_output_witness :
    renderOutline .json (extractOutlineBlocks c1Blocks 2) =
      renderOutline .json (extractOutlineBlocks c1Blocks 2) :=
  c9_deterministic_output c1Blocks c1Blocks 2 2 .json .json rfl rfl rfl

/-- Claim C10: deduplication compares numeral paths as exact strings; two
candidates whose paths differ as written (such as 1 and 01) are both
retained, each under its own path. -/
theorem c10_exact_string_dedup (a b : HeadingCandidate) (maxLevel : Nat)
    (hne : a.number ≠ b.number) (ha : levelOf a.number ≤ maxLevel)
    (hb : levelOf b.number ≤ maxLevel) :
    accumulate [a, b] maxLevel = [mkItem a, mkItem b] := by
  unfold accumulate
  rw [List.foldl_cons, List.foldl_cons, List.foldl_nil]
  have h1 : accStep maxLevel ([], []) a = ([mkItem a], [a.number]) := by
    simp [accStep, mkItem, ha]
  rw [h1]
  have h2 : accStep maxLevel ([mkItem a], [a.number]) b =
      ([mkItem a, mkItem b], [a.number, b.number]) := by
    have hne2 : ¬(b.number = a.number) := fun h => hne h.symm
    have hmem : ¬(b.number ∈ [a.number]) := by simp [hne2]
    simp [accStep, mkItem, hb, hmem, hne2]
  rw [h2]

/-- Witness for C10: the paths 1 and 01 denote the same number but differ
as strings, and both candidates survive. -/
theorem c10_exact_string_dedup_witness :
    accumulate [⟨"1".data, "Intro".data, "1 Intro".data⟩,
        ⟨"01".data, "Intro".data, "01 Intro".data⟩] 1 =
      [mkItem ⟨"1".data, "Intro".data, "1 Intro".data⟩,
       mkItem ⟨"01".data, "Intro".data, "01 Intro".data⟩] :=
  c10_exact_string_dedup _ _ 1 (by decide) (by decide) (by decide)

end ExtractOutline
